import Mathlib

/-!
Verification of the LeetAI firmware core against its specification.

The definitions below are shallow embeddings of the Python sources:
`src/firmware/src/common/song.py`, `src/firmware/src/common/network.py`,
`src/firmware/src/core/pitch.py` and `src/firmware/src/core/pattern.py`.
Python lists of event fields `[tick, ch, note, intensity]` become the
`SongEvent` structure; byte strings become `List Nat`; Python floats are
modelled by exact rationals; Python runtime exceptions (`IndexError`,
`ZeroDivisionError`) become an explicit error monad.
-/

namespace LeetAI

/-- An event `[tick, ch, note, intensity]` as stored in `Song.events` /
`LocalSong.events` (song.py). -/
structure SongEvent where
  tick : Nat
  ch : Nat
  note : Nat
  intensity : Nat
deriving DecidableEq, Repr, Inhabited

/-- The `packet[1:] == array[p][1:]` comparison in `add_event_last`:
equality of everything but the tick. -/
def sameBody (a b : SongEvent) : Prop :=
  a.ch = b.ch ∧ a.note = b.note ∧ a.intensity = b.intensity

instance (a b : SongEvent) : Decidable (sameBody a b) := by
  unfold sameBody; infer_instance

/-- First `while` loop of `add_event_last` (song.py line 438):
`while p >= 0 and packet[0] < array[p][0]: p -= 1`.
The index is carried as `q = p + 1` so that `q = 0` encodes `p = -1`;
the returned value is again `p + 1` for the final `p`. -/
def scanPastGreater (array : List SongEvent) (tick : Nat) : Nat → Nat
  | 0 => 0
  | q + 1 =>
    if tick < (array.getD q default).tick then scanPastGreater array tick q
    else q + 1

/-- Second `while` loop of `add_event_last` (song.py lines 441-444):
`while p >= 0 and packet[0] == array[p][0]: if packet[1:] == array[p][1:]:
return; p -= 1`.  `none` encodes the early `return` on a redundant event;
`some q` returns the final `p + 1`. -/
def scanEqualSkipDup (array : List SongEvent) (packet : SongEvent) : Nat → Option Nat
  | 0 => some 0
  | q + 1 =>
    if packet.tick = (array.getD q default).tick then
      if sameBody packet (array.getD q default) then none
      else scanEqualSkipDup array packet q
    else some (q + 1)

/-- Python `list.insert(n, a)`: clamps an out-of-range index to an append.
(`List.insertIdx` is a no-op past the end, Python appends there.) -/
def pyInsert (l : List SongEvent) (n : Nat) (a : SongEvent) : List SongEvent :=
  if l.length < n then l ++ [a] else l.insertIdx n a

/-- Embeds `add_event_last` (song.py lines 422-446): insert an event into a
tick-sorted list, appending fast when the tick is the largest so far,
otherwise scanning backward from the tail and skipping exact duplicates. -/
def add_event_last (array : List SongEvent) (packet : SongEvent) : List SongEvent :=
  match array.getLast? with
  | none => array ++ [packet]            -- if not array: array.append(packet)
  | some last =>
    if last.tick < packet.tick then      -- if packet[0] > array[-1][0]
      array ++ [packet]
    else
      match scanEqualSkipDup array packet (scanPastGreater array packet.tick array.length) with
      | none => array                    -- redundant event
      | some q => pyInsert array q packet  -- array.insert(p+1, packet)

example :
    add_event_last (add_event_last [] ⟨0, 0, 60, 100⟩) ⟨0, 0, 61, 100⟩
      = [⟨0, 0, 61, 100⟩, ⟨0, 0, 60, 100⟩] := by decide

example :
    add_event_last [⟨0, 0, 60, 100⟩, ⟨4, 0, 60, 0⟩] ⟨0, 0, 60, 100⟩
      = [⟨0, 0, 60, 100⟩, ⟨4, 0, 60, 0⟩] := by decide

example :
    add_event_last [⟨0, 0, 60, 100⟩, ⟨4, 0, 60, 0⟩] ⟨2, 0, 61, 90⟩
      = [⟨0, 0, 60, 100⟩, ⟨2, 0, 61, 90⟩, ⟨4, 0, 60, 0⟩] := by decide

/-- The Event Store order: ascending ticks. -/
def TickSorted (l : List SongEvent) : Prop :=
  l.Pairwise (fun a b => a.tick ≤ b.tick)

instance (l : List SongEvent) : Decidable (TickSorted l) := by
  unfold TickSorted; infer_instance

/-! ## Python runtime primitives -/

/-- The runtime exceptions the embedded code can raise. -/
inductive PyErr where
  | indexError
  | zeroDivisionError
deriving DecidableEq, Repr

/-- Python `data[i]` on a byte string: raises `IndexError` out of range. -/
def pyByte (data : List Nat) (i : Nat) : Except PyErr Nat :=
  if h : i < data.length then Except.ok data[i] else Except.error PyErr.indexError

/-- Python `data[a:b]` for `0 ≤ a ≤ b`: a clamped slice, never raises. -/
def pySlice (data : List Nat) (a b : Nat) : List Nat :=
  (data.drop a).take (b - a)

/-- Python `int.from_bytes(bs, "big")`. -/
def intFromBytes (bs : List Nat) : Nat :=
  bs.foldl (fun acc b => acc * 256 + b) 0

/-- Python `int(x)` on a float: truncation toward zero. -/
def pyTrunc (q : ℚ) : ℤ :=
  if 0 ≤ q then ⌊q⌋ else ⌈q⌉

/-! ## Song codec (song.py `Song._parse_header`, `_update_metadata`,
`_parse_events`, `load`) -/

/-- The `Song.metadata` dictionary: the six raw header fields plus the
derived values computed by `Song._update_metadata`. -/
structure SongMetadata where
  ticks_per_beat : Nat
  max_ticks : Nat
  tempo : Nat
  numerator : Nat
  denominator : Nat
  nr_instruments : Nat
  tick_to_time : ℚ
  song_length : ℚ
  sprite_tick : ℚ
  sprite_time : ℚ
deriving DecidableEq, Repr

/-- Embeds `Song._update_metadata` (song.py lines 67-82).  The float division
`60 * 4 / (tempo * ticks_per_beat * denominator)` raises
`ZeroDivisionError` when the product is zero. -/
def song_update_metadata (m : SongMetadata) : Except PyErr SongMetadata :=
  let d : ℚ := (m.tempo : ℚ) * m.ticks_per_beat * m.denominator
  if d = 0 then Except.error PyErr.zeroDivisionError
  else
    let ttt : ℚ := 60 * 4 / d
    let sl : ℚ := (m.max_ticks : ℚ) * ttt
    if 0 < m.max_ticks then
      Except.ok { m with
        tick_to_time := ttt, song_length := sl,
        sprite_tick := (m.max_ticks : ℚ) / (160 - 4),
        sprite_time := (m.max_ticks : ℚ) / (160 - 4) * ttt }
    else
      Except.ok { m with
        tick_to_time := ttt, song_length := sl,
        sprite_tick := 1, sprite_time := ttt }

/-- Embeds `Song._parse_header` (song.py lines 50-65). -/
def parse_header (data : List Nat) : Except PyErr SongMetadata := do
  let tpb := intFromBytes (pySlice data 0 2)
  let mt := intFromBytes (pySlice data 2 6)
  let tempo := intFromBytes (pySlice data 6 8)
  let num ← pyByte data 8
  let den ← pyByte data 9
  let ni ← pyByte data 10
  song_update_metadata
    { ticks_per_beat := tpb, max_ticks := mt, tempo := tempo,
      numerator := num, denominator := den, nr_instruments := ni,
      tick_to_time := 0, song_length := 0, sprite_tick := 0, sprite_time := 0 }

/-- The loop body of `Song._parse_events` (song.py lines 91-98):
`for i in range(11, len(data), 7)`, reading one 7-byte record per step. -/
def parse_events_from (data : List Nat) (i : Nat) (events : List SongEvent) :
    Except PyErr (List SongEvent) :=
  if _h : i < data.length then do
    let tick_start := intFromBytes (pySlice data i (i + 2))
    let tick_end := intFromBytes (pySlice data (i + 2) (i + 4))
    let ch ← pyByte data (i + 4)
    let note ← pyByte data (i + 5)
    let intensity ← pyByte data (i + 6)
    parse_events_from data (i + 7)
      (add_event_last (add_event_last events ⟨tick_start, ch, note, intensity⟩)
        ⟨tick_end, ch, note, 0⟩)
  else Except.ok events
termination_by data.length - i
decreasing_by simp_wf; omega

/-- Embeds `Song._parse_events` (song.py lines 84-98), from `self.events = []`. -/
def parse_events (data : List Nat) : Except PyErr (List SongEvent) :=
  parse_events_from data 11 []

/-- Embeds `Song.load` (song.py lines 43-48) on already-read file bytes:
`_parse_header` then `_parse_events`. -/
def song_load (data : List Nat) : Except PyErr (SongMetadata × List SongEvent) := do
  let md ← parse_header data
  let evs ← parse_events data
  Except.ok (md, evs)

/-! ## Packet protocol (network.py `PacketHandler.handle_packet`,
`send_song`) -/

/-- The typed tuples returned by `PacketHandler.handle_packet`, in the
field order of the Python returns. -/
inductive Packet where
  | event (ch tick_start tick_end note intensity : Nat)
  | live (ch note intensity : Nat)
  | pair (id : Nat)
  | tick (t : Nat)
  | begin
  | stop
  | header (ticks_per_beat max_ticks tempo numerator denominator nr_instruments : Nat)
  | mute (ch intensity : Nat)
  | update
  | reset
  | clear (id : Nat)
  | scale (scale_start : Nat) (scale : List Nat)
deriving DecidableEq, Repr

/-- Embeds `PacketHandler.handle_packet` (network.py lines 194-281).  `none`
input is the `if not packet: return None` guard; the result is `ok none`
for an unknown type byte, `ok (some _)` for a decoded packet, and
`error` when a byte access walks off a truncated payload.  Type bytes
are the `NETWORK_PACKET_TYPES` codes (config.py): 'e'=101, 'l'=108,
'p'=112, 't'=116, 'b'=98, 's'=115, 'h'=104, 'm'=109, 'u'=117, 'r'=114,
'c'=99, 'n'=110. -/
def handle_packet (packet : Option (List Nat)) : Except PyErr (Option Packet) := do
  match packet with
  | none => Except.ok none
  | some msg => do
    let t ← pyByte msg 0
    if t = 101 then do       -- 'e' event
      let tick_start := intFromBytes (pySlice msg 1 3)
      let tick_end := intFromBytes (pySlice msg 3 5)
      let ch ← pyByte msg 5
      let note ← pyByte msg 6
      let intensity ← pyByte msg 7
      Except.ok (some (Packet.event ch tick_start tick_end note intensity))
    else if t = 108 then do  -- 'l' live
      let ch ← pyByte msg 1
      let note ← pyByte msg 2
      let intensity ← pyByte msg 3
      Except.ok (some (Packet.live ch note intensity))
    else if t = 112 then do  -- 'p' pair
      let id ← pyByte msg 1
      Except.ok (some (Packet.pair id))
    else if t = 116 then     -- 't' tick
      Except.ok (some (Packet.tick (intFromBytes (pySlice msg 1 3))))
    else if t = 98 then      -- 'b' begin
      Except.ok (some Packet.begin)
    else if t = 115 then     -- 's' stop
      Except.ok (some Packet.stop)
    else if t = 104 then do  -- 'h' header
      let ticks_per_beat := intFromBytes (pySlice msg 1 3)
      let max_ticks := intFromBytes (pySlice msg 3 7)
      let tempo := intFromBytes (pySlice msg 7 9)
      let numerator ← pyByte msg 9
      let denominator ← pyByte msg 10
      let nr_instruments ← pyByte msg 11
      Except.ok (some (Packet.header ticks_per_beat max_ticks tempo numerator
        denominator nr_instruments))
    else if t = 109 then do  -- 'm' mute
      let ch ← pyByte msg 1
      let intensity ← pyByte msg 2
      Except.ok (some (Packet.mute ch intensity))
    else if t = 117 then     -- 'u' update
      Except.ok (some Packet.update)
    else if t = 114 then     -- 'r' reset
      Except.ok (some Packet.reset)
    else if t = 99 then do   -- 'c' clear
      let id ← pyByte msg 1
      Except.ok (some (Packet.clear id))
    else if t = 110 then     -- 'n' scale
      if 10 ≤ msg.length then do
        let scale_start ← pyByte msg 2
        Except.ok (some (Packet.scale scale_start (pySlice msg 3 10)))
      else
        Except.ok none
    else
      Except.ok none

/-- The event-packet loop of `PacketHandler.send_song` (network.py lines
134-141): `for i in range(11, len(byte_song), 7)`, emitting an
`'e' + byte_song[i:i+7]` packet when the record's channel byte matches
the target id or the id is the broadcast value 255.  Returns the emitted
packets in order. -/
def send_song_events_from (id : Nat) (byte_song : List Nat) (i : Nat)
    (acc : List (List Nat)) : Except PyErr (List (List Nat)) :=
  if _h : i < byte_song.length then do
    let ch ← pyByte byte_song (i + 4)
    let pk := 101 :: pySlice byte_song i (i + 7)
    send_song_events_from id byte_song (i + 7)
      (if ch = id ∨ id = 255 then acc ++ [pk] else acc)
  else Except.ok acc
termination_by byte_song.length - i
decreasing_by simp_wf; omega

/-- The 'e' packets emitted by one `send_song` call. -/
def send_song_event_packets (id : Nat) (byte_song : List Nat) :
    Except PyErr (List (List Nat)) :=
  send_song_events_from id byte_song 11 []

/-- The body of a byte song split into its 7-byte records, used to state
what `send_song` and `_parse_events` do per record. -/
def chunks7 (l : List Nat) : List (List Nat) :=
  if l = [] then [] else l.take 7 :: chunks7 (l.drop 7)
termination_by l.length
decreasing_by simp_wf; rcases l with _ | ⟨x, xs⟩ <;> simp_all

/-- Record field accessors for a 7-byte record, matching the byte layout
read by `_parse_events` and `handle_packet`. -/
def recTickStart (r : List Nat) : Nat := intFromBytes (r.take 2)

def recTickEnd (r : List Nat) : Nat := intFromBytes ((r.drop 2).take 2)

def recCh (r : List Nat) : Nat := r.getD 4 0

def recNote (r : List Nat) : Nat := r.getD 5 0

def recIntensity (r : List Nat) : Nat := r.getD 6 0

/-- The two events `_parse_events` inserts for one 7-byte record
(song.py lines 97-98). -/
def parse_record_events (events : List SongEvent) (r : List Nat) : List SongEvent :=
  add_event_last
    (add_event_last events ⟨recTickStart r, recCh r, recNote r, recIntensity r⟩)
    ⟨recTickEnd r, recCh r, recNote r, 0⟩

/-- The `byte_song[i + 4] == id or id == 255` filter of `send_song`
(network.py line 137), at the record level. -/
def recMatches (id : Nat) (r : List Nat) : Bool :=
  decide (recCh r = id ∨ id = 255)

/-- Channel restriction of a store: the events of one channel. -/
def chEq (c : Nat) (e : SongEvent) : Bool := e.ch = c

/-! ## LocalSong (song.py `LocalSong`) -/

/-- The store mutation of `LocalSong.add_event` (song.py lines 352-355):
both the note-on and the synthetic note-off are tagged with the
replica's own `instrument_id`; the packet's channel is not a parameter.
(The remaining lines of `add_event` touch only `metadata` and
`pattern_roll`, never `events`.) -/
def local_add_event_events (events : List SongEvent) (instrument_id
    tick_start tick_end note intensity : Nat) : List SongEvent :=
  add_event_last
    (add_event_last events ⟨tick_start, instrument_id, note, intensity⟩)
    ⟨tick_end, instrument_id, note, 0⟩

/-- The `LocalSong` state relevant to the store invariant: the channel
identity and the event store.  (`metadata` and `pattern_roll` are
display-collaborator state; no `LocalSong` method ever writes an event
whose channel comes from them.) -/
structure LocalSongState where
  instrument_id : Nat
  events : List SongEvent
deriving DecidableEq, Repr

/-- Embeds `LocalSong.__init__` (song.py lines 278-299): the store starts
empty. -/
def localSongInit (instrument_id : Nat) : LocalSongState :=
  { instrument_id := instrument_id, events := [] }

/-- The `LocalSong` mutators named by the spec: `add_event` (no channel
parameter), `update_header` (metadata only), `clear` (empties the
store). -/
inductive LocalOp where
  | addEvent (tick_start tick_end note intensity : Nat)
  | updateHeader (ticks_per_beat max_ticks tempo numerator denominator nr_instruments : Nat)
  | clear
deriving DecidableEq, Repr

/-- Effect of one `LocalSong` method call on the store
(song.py lines 319-373): `update_header` never touches `events`;
`clear` resets it to `[]`. -/
def localApply (st : LocalSongState) : LocalOp → LocalSongState
  | LocalOp.addEvent ts te note intensity =>
    { st with events := local_add_event_events st.events st.instrument_id ts te note intensity }
  | LocalOp.updateHeader _ _ _ _ _ _ => st
  | LocalOp.clear => { st with events := [] }

/-- A sequence of `LocalSong` method calls. -/
def localRun (st : LocalSongState) (ops : List LocalOp) : LocalSongState :=
  ops.foldl localApply st

/-- The satellite's handling of one raw inbound packet, for the event
store: `handle_packet` decode followed by `PitchSynth._handle_event_packet`
(pitch.py lines 434-442), which applies the event through
`LocalSong.add_event` only when the packet channel equals the
instrument id. -/
def satellite_apply_packet (c : Nat) (events : List SongEvent) (pk : List Nat) :
    Except PyErr (List SongEvent) := do
  match ← handle_packet (some pk) with
  | some (Packet.event ch tick_start tick_end note intensity) =>
    if ch = c then
      Except.ok (local_add_event_events events c tick_start tick_end note intensity)
    else Except.ok events
  | _ => Except.ok events

/-- Deliver a list of raw packets to a satellite of channel `c`. -/
def satellite_process (c : Nat) (events : List SongEvent) :
    List (List Nat) → Except PyErr (List SongEvent)
  | [] => Except.ok events
  | pk :: pks => do
    let events' ← satellite_apply_packet c events pk
    satellite_process c events' pks

/-! ## Playback schedulers -/

/-- Satellite playback state (pitch.py `PitchSynth`): cursor, clock
anchor and drift correction. -/
structure PlaybackState where
  song_index : Nat
  start_time : ℚ
  tick_delta : ℤ
deriving DecidableEq, Repr

/-- One satellite scheduler step in the Playing state:
`PitchSynth._process_playback` guard (pitch.py line 315) plus the
scheduling core of `_handle_playback` (pitch.py lines 324-328): fetch
the cursor event, fire it when
`now ≥ start_time + (event.tick − tick_delta) * tick_to_time`, and
advance the cursor.  Returns the new state and the fired
(position, event) if any.  (The remaining lines of `_handle_playback`
compute the display cursor for the display collaborator, which is out
of core scope and owns no scheduling state.) -/
def pitch_playback_step (events : List SongEvent) (tick_to_time : ℚ)
    (st : PlaybackState) (now : ℚ) : PlaybackState × Option (Nat × SongEvent) :=
  if h : st.song_index < events.length then
    let event := events[st.song_index]
    if st.start_time + ((event.tick : ℚ) - (st.tick_delta : ℚ)) * tick_to_time ≤ now then
      ({ st with song_index := st.song_index + 1 }, some (st.song_index, event))
    else (st, none)
  else (st, none)

/-- Iterate the satellite scheduler over a sequence of loop times,
collecting the fired (position, event) pairs in firing order. -/
def pitch_playback_run (events : List SongEvent) (tick_to_time : ℚ)
    (st : PlaybackState) : List ℚ → List (Nat × SongEvent) × PlaybackState
  | [] => ([], st)
  | now :: nows =>
    match pitch_playback_step events tick_to_time st now with
    | (st', some fired) =>
      (fired :: (pitch_playback_run events tick_to_time st' nows).1,
        (pitch_playback_run events tick_to_time st' nows).2)
    | (st', none) =>
      pitch_playback_run events tick_to_time st' nows

/-- Embeds `PitchSynth._handle_tick_packet` (pitch.py lines 406-412) and the
identical `PatternNetworkHandler._handle_tick_packet` (pattern.py lines
264-270): `tick_delta = tick − int(time_to_tick * (now − start_time))`. -/
def handle_tick_packet (time_to_tick : ℚ) (st : PlaybackState) (tick : Nat)
    (now : ℚ) : PlaybackState :=
  { st with tick_delta := (tick : ℤ) - pyTrunc (time_to_tick * (now - st.start_time)) }

/-- The `SongPlayer.playback_state` values (song.py): `"paused"` / `"playing"`. -/
inductive PlayState where
  | paused
  | playing
deriving DecidableEq, Repr

/-- Conductor player state (song.py `SongPlayer`). -/
structure SPState where
  playback_state : PlayState
  song_index : Nat
  start_time : ℚ
  sprite_last_pos : ℤ
deriving DecidableEq, Repr

/-- The `while` loop of `SongPlayer.update` (song.py lines 244-265):
each iteration samples `time.monotonic()` anew; when the cursor event is
due it is fired and the call returns at once.  One `now` sample is
consumed per iteration; `none` means the sample list ran out while the
loop was still waiting. -/
def song_player_update_loop (events : List SongEvent) (tick_to_time sprite_time : ℚ)
    (st : SPState) : List ℚ → Option (SPState × Option (ℤ × Nat × Nat × Nat))
  | [] => none
  | now :: nows =>
    if h : st.song_index < events.length then
      let event := events[st.song_index]
      if st.start_time + (event.tick : ℚ) * tick_to_time ≤ now then
        let sprite_pos : ℤ :=
          if sprite_time = 0 then 0 else pyTrunc ((now - st.start_time) / sprite_time)
        some ({ st with song_index := st.song_index + 1 },
          some (sprite_pos, event.ch, event.note, event.intensity))
      else song_player_update_loop events tick_to_time sprite_time st nows
    else some (st, none)

/-- Embeds `SongPlayer.update` (song.py lines 217-265): not-playing guard,
end-of-song branch (pause, cursor to 0, returns `(0,0,0,0)`), then the
event loop.  The 't'-packet broadcast and `audio_system` calls are
collaborator side effects with no scheduling state. -/
def song_player_update (events : List SongEvent) (tick_to_time sprite_time : ℚ)
    (st : SPState) (nows : List ℚ) : Option (SPState × Option (ℤ × Nat × Nat × Nat)) :=
  if st.playback_state ≠ PlayState.playing then some (st, none)
  else if events.length ≤ st.song_index then
    some
      ({ st with
          playback_state := PlayState.paused
          song_index := 0
          sprite_last_pos := 0 },
        some (0, 0, 0, 0))
  else song_player_update_loop events tick_to_time sprite_time st nows

/-- Satellite pattern-mode playback state (pattern.py `PatternState`
fields used by `PatternPlayback.update`). -/
structure PatternState where
  mode : Nat
  song_index : Nat
  playback_start_time : ℚ
  tick_delta : ℤ
  instrument_id : Nat
deriving DecidableEq, Repr

/-- Embeds `PatternPlayback.update` (pattern.py lines 388-440), scheduling
core: in mode `playing` (= 1) with the cursor in range, fire the cursor
event when due and advance; at most one event per call.  (MIDI dispatch
and the display update are collaborator effects.) -/
def pattern_playback_update (events : List SongEvent) (tick_to_time : ℚ)
    (st : PatternState) (now : ℚ) : PatternState × Option SongEvent :=
  if h : st.mode = 1 ∧ st.song_index < events.length then
    let event := events[st.song_index]
    if st.playback_start_time + ((event.tick : ℚ) - (st.tick_delta : ℚ)) * tick_to_time ≤ now then
      ({ st with song_index := st.song_index + 1 }, some event)
    else (st, none)
  else (st, none)

/-! ## Event store lemmas: a structural description of `add_event_last`
on tick-sorted input -/

/-- Decidable tick-below-`t` test, the split point of an insertion. -/
def tickLt (t : Nat) (e : SongEvent) : Bool := e.tick < t

/-- Decidable tick-equals-`t` test. -/
def tickEq (t : Nat) (e : SongEvent) : Bool := e.tick = t

theorem eq_of_sameBody_of_tick_eq {a b : SongEvent} (h : sameBody a b)
    (ht : a.tick = b.tick) : a = b := by
  cases a; cases b
  obtain ⟨h1, h2, h3⟩ := h
  simp_all

theorem scanPastGreater_append (X Y : List SongEvent) (t : Nat)
    (hX : ∀ e ∈ X, e.tick ≤ t) (hY : ∀ e ∈ Y, t < e.tick) :
    ∀ q, X.length ≤ q → q ≤ X.length + Y.length →
      scanPastGreater (X ++ Y) t q = X.length := by
  intro q
  induction q with
  | zero =>
    intro h1 _
    simp only [scanPastGreater]
    omega
  | succ q ih =>
    intro h1 h2
    by_cases hq : X.length = q + 1
    · have hqX : q < X.length := by omega
      have hgd : (X ++ Y).getD q default = X.getD q default :=
        List.getD_append _ _ _ _ hqX
      have hmem : X.getD q default ∈ X := by
        rw [List.getD_eq_getElem _ _ hqX]
        exact List.getElem_mem hqX
      have hle : (X.getD q default).tick ≤ t := hX _ hmem
      simp only [scanPastGreater, hgd]
      rw [if_neg (by omega)]
      omega
    · have h1' : X.length ≤ q := by omega
      have hqY : q - X.length < Y.length := by omega
      have hgd : (X ++ Y).getD q default = Y.getD (q - X.length) default :=
        List.getD_append_right _ _ _ _ h1'
      have hmem : Y.getD (q - X.length) default ∈ Y := by
        rw [List.getD_eq_getElem _ _ hqY]
        exact List.getElem_mem hqY
      have hlt : t < (Y.getD (q - X.length) default).tick := hY _ hmem
      simp only [scanPastGreater, hgd]
      rw [if_pos hlt]
      exact ih h1' (by omega)

theorem scanEqualSkipDup_append (X Y Z : List SongEvent) (packet : SongEvent)
    (hX : ∀ e ∈ X, e.tick ≠ packet.tick) (hY : ∀ e ∈ Y, e.tick = packet.tick) :
    ∀ q, X.length ≤ q → q ≤ X.length + Y.length →
      scanEqualSkipDup (X ++ (Y ++ Z)) packet q =
        if packet ∈ Y.take (q - X.length) then none else some X.length := by
  intro q
  induction q with
  | zero =>
    intro h1 _
    have hX0 : X.length = 0 := by omega
    simp [scanEqualSkipDup, hX0]
  | succ q ih =>
    intro h1 h2
    by_cases hq : X.length = q + 1
    · have hqX : q < X.length := by omega
      have hgd : (X ++ (Y ++ Z)).getD q default = X.getD q default :=
        List.getD_append _ _ _ _ hqX
      have hmem : X.getD q default ∈ X := by
        rw [List.getD_eq_getElem _ _ hqX]
        exact List.getElem_mem hqX
      have hne : (X.getD q default).tick ≠ packet.tick := hX _ hmem
      simp only [scanEqualSkipDup, hgd]
      rw [if_neg (by omega)]
      have : q + 1 - X.length = 0 := by omega
      rw [this]
      simp [hq]
    · have h1' : X.length ≤ q := by omega
      have hqY : q - X.length < Y.length := by omega
      have hgd : (X ++ (Y ++ Z)).getD q default = Y.getD (q - X.length) default := by
        rw [List.getD_append_right _ _ _ _ h1']
        exact List.getD_append _ _ _ _ hqY
      have hYq : Y.getD (q - X.length) default = Y[q - X.length] :=
        List.getD_eq_getElem _ _ hqY
      have hmem : Y.getD (q - X.length) default ∈ Y := by
        rw [hYq]; exact List.getElem_mem hqY
      have heqt : (Y.getD (q - X.length) default).tick = packet.tick := hY _ hmem
      have htake : Y.take (q + 1 - X.length) = Y.take (q - X.length) ++ [Y[q - X.length]] := by
        have : q + 1 - X.length = (q - X.length) + 1 := by omega
        rw [this, List.take_succ, List.getElem?_eq_getElem hqY]
        rfl
      simp only [scanEqualSkipDup, hgd]
      rw [if_pos heqt.symm]
      by_cases hsb : sameBody packet (Y.getD (q - X.length) default)
      · rw [if_pos hsb]
        have hpe : packet = Y[q - X.length] := by
          rw [← hYq]
          exact eq_of_sameBody_of_tick_eq hsb heqt.symm
        rw [if_pos]
        rw [htake, ← hpe]
        simp
      · rw [if_neg hsb]
        rw [ih h1' (by omega)]
        have hpne : packet ≠ Y[q - X.length] := by
          intro hpe
          exact hsb (by rw [← hYq] at hpe; rw [← hpe]; exact ⟨rfl, rfl, rfl⟩)
        have hmemiff : packet ∈ Y.take (q + 1 - X.length) ↔ packet ∈ Y.take (q - X.length) := by
          rw [htake]
          simp only [List.mem_append, List.mem_singleton]
          exact or_iff_left hpne
        by_cases hmem2 : packet ∈ Y.take (q - X.length)
        · rw [if_pos hmem2, if_pos (hmemiff.mpr hmem2)]
        · rw [if_neg hmem2, if_neg (fun h => hmem2 (hmemiff.mp h))]

theorem mem_dropWhile_tickLt {l : List SongEvent} (hs : TickSorted l) (t : Nat) :
    ∀ e ∈ l.dropWhile (tickLt t), t ≤ e.tick := by
  induction l with
  | nil => intro e he; simp [List.dropWhile] at he
  | cons x xs ih =>
    obtain ⟨hs1, hs2⟩ := List.pairwise_cons.mp hs
    intro e he
    rw [List.dropWhile_cons] at he
    by_cases hx : tickLt t x
    · rw [if_pos hx] at he
      exact ih hs2 e he
    · rw [if_neg hx] at he
      have hxt : t ≤ x.tick := by
        simp [tickLt] at hx; omega
      rcases List.mem_cons.mp he with rfl | he'
      · exact hxt
      · exact le_trans hxt (hs1 e he')

theorem mem_dropWhile_tickEq {l : List SongEvent} (t : Nat) (hs : TickSorted l)
    (hge : ∀ e ∈ l, t ≤ e.tick) :
    ∀ e ∈ l.dropWhile (tickEq t), t < e.tick := by
  induction l with
  | nil => intro e he; simp [List.dropWhile] at he
  | cons x xs ih =>
    obtain ⟨hs1, hs2⟩ := List.pairwise_cons.mp hs
    intro e he
    rw [List.dropWhile_cons] at he
    by_cases hx : tickEq t x
    · rw [if_pos hx] at he
      exact ih hs2 (fun e' he' => hge e' (List.mem_cons_of_mem _ he')) e he
    · rw [if_neg hx] at he
      have hxt : t < x.tick := by
        have := hge x (List.mem_cons_self _ _)
        simp [tickEq] at hx
        omega
      rcases List.mem_cons.mp he with rfl | he'
      · exact hxt
      · exact lt_of_lt_of_le hxt (hs1 e he')

theorem tick_le_getLast {l : List SongEvent} (hs : TickSorted l) {last : SongEvent}
    (hlast : l.getLast? = some last) : ∀ e ∈ l, e.tick ≤ last.tick := by
  induction l with
  | nil => simp at hlast
  | cons x xs ih =>
    obtain ⟨hs1, hs2⟩ := List.pairwise_cons.mp hs
    intro e he
    cases xs with
    | nil =>
      have hxl : x = last := by simpa using hlast
      rcases List.mem_singleton.mp he with rfl
      exact le_of_eq (congrArg SongEvent.tick hxl)
    | cons y ys =>
      rw [List.getLast?_cons_cons] at hlast
      have hlastmem : last ∈ y :: ys := by
        rcases List.mem_getLast?_eq_getLast (show last ∈ (y :: ys).getLast? from hlast) with
          ⟨hne, rfl⟩
        exact List.getLast_mem hne
      rcases List.mem_cons.mp he with rfl | he'
      · exact hs1 last hlastmem
      · exact ih hs2 hlast e he'

theorem insertIdx_append_self {α : Type} (A R : List α) (x : α) :
    List.insertIdx A.length x (A ++ R) = A ++ x :: R := by
  induction A with
  | nil => simp
  | cons a as ih => simp [List.insertIdx_succ_cons, ih]

/-- The structural content of `add_event_last` on a tick-sorted store:
an exact duplicate is a no-op, any other event is inserted at the front
of the run of events sharing its tick (immediately after the last
strictly smaller tick). -/
theorem add_event_last_eq_of_sorted (l : List SongEvent) (packet : SongEvent)
    (hs : TickSorted l) :
    add_event_last l packet =
      if packet ∈ l then l
      else l.takeWhile (tickLt packet.tick) ++ packet :: l.dropWhile (tickLt packet.tick) := by
  have hl : l = l.takeWhile (tickLt packet.tick) ++ l.dropWhile (tickLt packet.tick) :=
    (List.takeWhile_append_dropWhile _ _).symm
  generalize hA_def : l.takeWhile (tickLt packet.tick) = A at hl ⊢
  generalize hD_def : l.dropWhile (tickLt packet.tick) = D at hl ⊢
  have hD : D = D.takeWhile (tickEq packet.tick) ++ D.dropWhile (tickEq packet.tick) :=
    (List.takeWhile_append_dropWhile _ _).symm
  generalize hB_def : D.takeWhile (tickEq packet.tick) = B at hD
  generalize hC_def : D.dropWhile (tickEq packet.tick) = C at hD
  have hA : ∀ e ∈ A, e.tick < packet.tick := by
    intro e he
    rw [← hA_def] at he
    have := List.mem_takeWhile_imp he
    simpa [tickLt] using this
  have hDge : ∀ e ∈ D, packet.tick ≤ e.tick := by
    rw [← hD_def]
    exact mem_dropWhile_tickLt hs packet.tick
  have hDsorted : TickSorted D := by
    rw [← hD_def]
    exact List.Pairwise.sublist (List.dropWhile_sublist _) hs
  have hB : ∀ e ∈ B, e.tick = packet.tick := by
    intro e he
    rw [← hB_def] at he
    have := List.mem_takeWhile_imp he
    simpa [tickEq] using this
  have hC : ∀ e ∈ C, packet.tick < e.tick := by
    rw [← hC_def]
    exact mem_dropWhile_tickEq packet.tick hDsorted hDge
  have hmemB : packet ∈ l ↔ packet ∈ B := by
    constructor
    · intro hmem
      rw [hl, hD] at hmem
      rcases List.mem_append.mp hmem with hmA | hmBC
      · exact absurd (hA _ hmA) (by omega)
      · rcases List.mem_append.mp hmBC with hmB | hmC
        · exact hmB
        · exact absurd (hC _ hmC) (by omega)
    · intro hmem
      rw [hl, hD]
      exact List.mem_append.mpr (Or.inr (List.mem_append.mpr (Or.inl hmem)))
  rcases hlast : l.getLast? with _ | last
  · -- empty store: plain append
    have hnil : l = [] := List.getLast?_eq_none_iff.mp hlast
    have hAnil : A = [] := by rw [← hA_def, hnil]; rfl
    have hDnil : D = [] := by rw [← hD_def, hnil]; rfl
    rw [hnil, hAnil, hDnil]
    simp [add_event_last]
  · simp only [add_event_last, hlast]
    by_cases hfast : last.tick < packet.tick
    · -- fast path: strictly newest tick, append at the tail
      rw [if_pos hfast]
      have hall : ∀ e ∈ l, e.tick ≤ last.tick := tick_le_getLast hs hlast
      have hpne : packet ∉ l := by
        intro hmem
        have := hall packet hmem
        omega
      have hDnil : D = [] := by
        rw [← hD_def]
        rw [List.dropWhile_eq_nil_iff]
        intro x hx
        simp [tickLt]
        have := hall x hx
        omega
      have hAl : A = l := by
        have := hl
        rw [hDnil] at this
        simpa using this.symm
      rw [if_neg hpne, hAl, hDnil]
    · rw [if_neg hfast]
      have hlABC : l = (A ++ B) ++ C := by
        rw [hl, hD, List.append_assoc]
      have hlen : l.length = (A ++ B).length + C.length := by
        rw [hlABC, List.length_append]
      have hq1 : scanPastGreater l packet.tick l.length = (A ++ B).length := by
        conv_lhs => rw [hlen, hlABC]
        apply scanPastGreater_append (A ++ B) C packet.tick
        · intro e he
          rcases List.mem_append.mp he with hmA | hmB
          · exact le_of_lt (hA _ hmA)
          · exact le_of_eq (hB _ hmB)
        · exact hC
        · omega
        · omega
      have hq2 : scanEqualSkipDup l packet ((A ++ B).length) =
          if packet ∈ B then none else some A.length := by
        conv_lhs => rw [hl, hD]
        rw [scanEqualSkipDup_append A B C packet
          (fun e he => by have := hA _ he; omega) hB _
          (by simp only [List.length_append]; omega)
          (by simp only [List.length_append]; omega)]
        have hBl : (A ++ B).length - A.length = B.length := by
          simp only [List.length_append]; omega
        rw [hBl, List.take_length]
      rw [hq1, hq2]
      by_cases hmem : packet ∈ B
      · rw [if_pos hmem, if_pos (hmemB.mpr hmem)]
      · rw [if_neg hmem, if_neg (fun h => hmem (hmemB.mp h))]
        have hAle : A.length ≤ l.length := by
          rw [hl, List.length_append]
          omega
        show pyInsert l A.length packet = A ++ packet :: D
        unfold pyInsert
        rw [if_neg (by omega)]
        conv_lhs => rw [hl]
        exact insertIdx_append_self A D packet

/-- Inserting into a tick-sorted store keeps it tick-sorted. -/
theorem tickSorted_add_event_last {l : List SongEvent} (hs : TickSorted l)
    (p : SongEvent) : TickSorted (add_event_last l p) := by
  rw [add_event_last_eq_of_sorted l p hs]
  by_cases hmem : p ∈ l
  · rw [if_pos hmem]; exact hs
  · rw [if_neg hmem]
    unfold TickSorted
    rw [List.pairwise_append]
    refine ⟨List.Pairwise.sublist (List.takeWhile_sublist _) hs, ?_, ?_⟩
    · rw [List.pairwise_cons]
      exact ⟨fun e he => mem_dropWhile_tickLt hs p.tick e he,
        List.Pairwise.sublist (List.dropWhile_sublist _) hs⟩
    · intro a ha b hb
      have haA : a.tick < p.tick := by
        have := List.mem_takeWhile_imp ha
        simpa [tickLt] using this
      rcases List.mem_cons.mp hb with rfl | hb'
      · exact le_of_lt haA
      · have := mem_dropWhile_tickLt hs p.tick b hb'
        omega

/-- An exact duplicate insertion is a no-op on a tick-sorted store. -/
theorem add_event_last_duplicate {l : List SongEvent} (hs : TickSorted l)
    {p : SongEvent} (hmem : p ∈ l) : add_event_last l p = l := by
  rw [add_event_last_eq_of_sorted l p hs, if_pos hmem]

/-- Unconditionally, the result of `add_event_last` holds no event beyond
the old store and the inserted packet. -/
theorem mem_add_event_last_sub {l : List SongEvent} {p : SongEvent} :
    ∀ x ∈ add_event_last l p, x ∈ l ∨ x = p := by
  intro x hx
  unfold add_event_last at hx
  split at hx
  · rcases List.mem_append.mp hx with h | h
    · exact Or.inl h
    · exact Or.inr (List.mem_singleton.mp h)
  · split at hx
    · rcases List.mem_append.mp hx with h | h
      · exact Or.inl h
      · exact Or.inr (List.mem_singleton.mp h)
    · split at hx
      · exact Or.inl hx
      · rename_i q _
        unfold pyInsert at hx
        by_cases hlen : l.length < q
        · rw [if_pos hlen] at hx
          rcases List.mem_append.mp hx with h | h
          · exact Or.inl h
          · exact Or.inr (List.mem_singleton.mp h)
        · rw [if_neg hlen] at hx
          rcases (List.mem_insertIdx (by omega)).mp hx with h | h
          · exact Or.inr h
          · exact Or.inl h

theorem takeWhile_append_cons_of {p : SongEvent → Bool} {A R : List SongEvent}
    {y : SongEvent} (hA : ∀ a ∈ A, p a) (hy : ¬ p y) :
    (A ++ y :: R).takeWhile p = A ∧ (A ++ y :: R).dropWhile p = y :: R := by
  induction A with
  | nil =>
    constructor
    · rw [List.nil_append, List.takeWhile_cons, if_neg hy]
    · rw [List.nil_append, List.dropWhile_cons, if_neg hy]
  | cons a as ih =>
    have hpa : p a := hA a (List.mem_cons_self _ _)
    have ih' := ih (fun x hx => hA x (List.mem_cons_of_mem _ hx))
    constructor
    · rw [List.cons_append, List.takeWhile_cons, if_pos hpa, ih'.1]
    · rw [List.cons_append, List.dropWhile_cons, if_pos hpa, ih'.2]

/-- Inserting two distinct fresh events carrying the same tick places the
second in front of the first: the store ends as
`smaller ticks ++ B :: A :: rest`. -/
theorem add_event_last_same_tick_pair {store : List SongEvent} {A B : SongEvent}
    (hs : TickSorted store) (htick : A.tick = B.tick) (hAB : A ≠ B)
    (hAmem : A ∉ store) (hBmem : B ∉ store) :
    add_event_last (add_event_last store A) B =
      store.takeWhile (tickLt A.tick) ++ B :: A :: store.dropWhile (tickLt A.tick) := by
  have h1 : add_event_last store A =
      store.takeWhile (tickLt A.tick) ++ A :: store.dropWhile (tickLt A.tick) := by
    rw [add_event_last_eq_of_sorted store A hs, if_neg hAmem]
  have hs1 : TickSorted (add_event_last store A) := tickSorted_add_event_last hs A
  have hBnotin : B ∉ add_event_last store A := by
    rw [h1]
    intro hmem
    rcases List.mem_append.mp hmem with h | h
    · exact hBmem ((List.takeWhile_sublist _).subset h)
    · rcases List.mem_cons.mp h with h' | h'
      · exact hAB h'.symm
      · exact hBmem ((List.dropWhile_sublist _).subset h')
  have hsplit := takeWhile_append_cons_of (p := tickLt B.tick)
    (A := store.takeWhile (tickLt A.tick)) (R := store.dropWhile (tickLt A.tick)) (y := A)
    (fun a ha => by rw [← htick]; exact List.mem_takeWhile_imp ha)
    (by simp [tickLt]; omega)
  rw [add_event_last_eq_of_sorted _ B hs1, if_neg hBnotin, h1, hsplit.1, hsplit.2, htick]

/-! ## Claim C1 -/

/-- C1: for every tick-sorted event list and every call to the Event
Store insert operation `add_event_last` (used by `Song.add_event`,
`LocalSong.add_event` and `Song._parse_events`) with any event, the list
after the call is still sorted ascending by its tick field. -/
theorem c1_insert_preserves_tick_sorted (l : List SongEvent) (packet : SongEvent)
    (hs : TickSorted l) : TickSorted (add_event_last l packet) :=
  tickSorted_add_event_last hs packet

theorem c1_insert_preserves_tick_sorted_witness :
    TickSorted [⟨0, 0, 60, 100⟩, ⟨4, 0, 60, 0⟩] ∧
      TickSorted (add_event_last [⟨0, 0, 60, 100⟩, ⟨4, 0, 60, 0⟩] ⟨2, 0, 61, 90⟩) :=
  ⟨by decide, c1_insert_preserves_tick_sorted _ ⟨2, 0, 61, 90⟩ (by decide)⟩

/-! ## Claim C6 -/

/-- C6: on any tick-sorted (hence any reachable) store, inserting an
event already present — same tick, channel, note and intensity — leaves
the store exactly unchanged: `add_event_last` is a no-op on exact
duplicates. -/
theorem c6_duplicate_insert_is_noop (l : List SongEvent) (p : SongEvent)
    (hs : TickSorted l) (hmem : p ∈ l) : add_event_last l p = l :=
  add_event_last_duplicate hs hmem

theorem c6_duplicate_insert_is_noop_witness :
    add_event_last [⟨0, 0, 60, 100⟩, ⟨4, 0, 60, 0⟩] ⟨0, 0, 60, 100⟩
      = [⟨0, 0, 60, 100⟩, ⟨4, 0, 60, 0⟩] :=
  c6_duplicate_insert_is_noop _ _ (by decide) (by decide)

/-! ## Claim C7 -/

/-- C7 counterexample: inserting A = (0,0,60,100) and then the distinct
same-tick event B = (0,0,61,100) into an empty store leaves B BEFORE A,
not A before B as the claim states. -/
theorem c7_counterexample :
    add_event_last (add_event_last [] ⟨0, 0, 60, 100⟩) ⟨0, 0, 61, 100⟩
        = [⟨0, 0, 61, 100⟩, ⟨0, 0, 60, 100⟩] ∧
      add_event_last (add_event_last [] ⟨0, 0, 60, 100⟩) ⟨0, 0, 61, 100⟩
        ≠ [⟨0, 0, 60, 100⟩, ⟨0, 0, 61, 100⟩] := by
  decide

/-- C7 amended: for two distinct fresh events A and B with the same tick
(hence differing in channel, note or intensity), inserting A and then B
into a tick-sorted store leaves B immediately BEFORE A: a non-duplicate
insertion lands at the front of the run of equal-tick events. -/
theorem c7_same_tick_insert_goes_in_front (store : List SongEvent) (A B : SongEvent)
    (hs : TickSorted store) (htick : A.tick = B.tick) (hAB : A ≠ B)
    (hA : A ∉ store) (hB : B ∉ store) :
    add_event_last (add_event_last store A) B =
      store.takeWhile (tickLt A.tick) ++ B :: A :: store.dropWhile (tickLt A.tick) :=
  add_event_last_same_tick_pair hs htick hAB hA hB

theorem c7_same_tick_insert_goes_in_front_witness :
    add_event_last (add_event_last [⟨1, 0, 50, 7⟩, ⟨3, 0, 50, 0⟩] ⟨2, 0, 60, 100⟩)
        ⟨2, 0, 61, 90⟩
      = [⟨1, 0, 50, 7⟩, ⟨2, 0, 61, 90⟩, ⟨2, 0, 60, 100⟩, ⟨3, 0, 50, 0⟩] :=
  (c7_same_tick_insert_goes_in_front [⟨1, 0, 50, 7⟩, ⟨3, 0, 50, 0⟩]
    ⟨2, 0, 60, 100⟩ ⟨2, 0, 61, 90⟩ (by decide) (by decide) (by decide)
    (by decide) (by decide)).trans (by decide)

/-! ## Claim C10 -/

theorem localApply_instrument_id (st : LocalSongState) (op : LocalOp) :
    (localApply st op).instrument_id = st.instrument_id := by
  cases op <;> rfl

theorem localApply_ch_invariant (st : LocalSongState) (op : LocalOp)
    (h : ∀ e ∈ st.events, e.ch = st.instrument_id) :
    ∀ e ∈ (localApply st op).events, e.ch = st.instrument_id := by
  cases op with
  | addEvent ts te note intensity =>
    intro e he
    simp only [localApply, local_add_event_events] at he
    rcases mem_add_event_last_sub e he with h1 | rfl
    · rcases mem_add_event_last_sub e h1 with h2 | rfl
      · exact h e h2
      · rfl
    · rfl
  | updateHeader tpb mt tempo num den ni => exact h
  | clear => intro e he; simp [localApply] at he

theorem localRun_instrument_id : ∀ (ops : List LocalOp) (st : LocalSongState),
    (localRun st ops).instrument_id = st.instrument_id := by
  intro ops
  induction ops with
  | nil => intro st; rfl
  | cons op ops ih =>
    intro st
    have hrun : localRun st (op :: ops) = localRun (localApply st op) ops := rfl
    rw [hrun, ih, localApply_instrument_id]

theorem localRun_ch_invariant : ∀ (ops : List LocalOp) (st : LocalSongState),
    (∀ e ∈ st.events, e.ch = st.instrument_id) →
    ∀ e ∈ (localRun st ops).events, e.ch = (localRun st ops).instrument_id := by
  intro ops
  induction ops with
  | nil => intro st h; exact h
  | cons op ops ih =>
    intro st h
    have hrun : localRun st (op :: ops) = localRun (localApply st op) ops := rfl
    rw [hrun]
    apply ih
    rw [localApply_instrument_id]
    exact localApply_ch_invariant st op h

/-- C10: for every `LocalSong` replica and every sequence of
`add_event`, `update_header` and `clear` calls, every event held in the
replica's store has its channel equal to the replica's `instrument_id`:
`add_event` takes no channel parameter and tags both the note-on and the
synthetic note-off with `instrument_id`. -/
theorem c10_local_store_channel_invariant (id : Nat) (ops : List LocalOp) :
    ∀ e ∈ (localRun (localSongInit id) ops).events, e.ch = id := by
  intro e he
  have hid : (localRun (localSongInit id) ops).instrument_id = id :=
    localRun_instrument_id ops (localSongInit id)
  rw [← hid]
  exact localRun_ch_invariant ops (localSongInit id)
    (by intro e h; simp [localSongInit] at h) e he

theorem c10_local_store_channel_invariant_witness :
    (⟨0, 3, 60, 100⟩ : SongEvent).ch = 3 :=
  c10_local_store_channel_invariant 3 [LocalOp.addEvent 0 4 60 100]
    ⟨0, 3, 60, 100⟩ (by decide)

/-! ## Claim C2 -/

theorem pitch_playback_run_cons_fired {events : List SongEvent} {ttt : ℚ}
    {st st' : PlaybackState} {now : ℚ} {f : Nat × SongEvent} {nows : List ℚ}
    (hstep : pitch_playback_step events ttt st now = (st', some f)) :
    pitch_playback_run events ttt st (now :: nows) =
      (f :: (pitch_playback_run events ttt st' nows).1,
        (pitch_playback_run events ttt st' nows).2) := by
  rw [pitch_playback_run, hstep]

theorem pitch_playback_run_cons_skip {events : List SongEvent} {ttt : ℚ}
    {st st' : PlaybackState} {now : ℚ} {nows : List ℚ}
    (hstep : pitch_playback_step events ttt st now = (st', none)) :
    pitch_playback_run events ttt st (now :: nows) =
      pitch_playback_run events ttt st' nows := by
  rw [pitch_playback_run, hstep]

theorem pitch_playback_run_invariant (events : List SongEvent) (ttt : ℚ) :
    ∀ (nows : List ℚ) (st : PlaybackState),
      st.song_index ≤ (pitch_playback_run events ttt st nows).2.song_index ∧
      (∀ p ∈ (pitch_playback_run events ttt st nows).1,
        st.song_index ≤ p.1 ∧ events[p.1]? = some p.2) ∧
      (pitch_playback_run events ttt st nows).1.Pairwise (fun a b => a.1 < b.1) := by
  intro nows
  induction nows with
  | nil =>
    intro st
    refine ⟨le_refl _, ?_, ?_⟩ <;> simp [pitch_playback_run]
  | cons now nows ih =>
    intro st
    by_cases h : st.song_index < events.length
    · by_cases hdue :
        st.start_time + ((events[st.song_index].tick : ℚ) - (st.tick_delta : ℚ)) * ttt ≤ now
      · have hstep : pitch_playback_step events ttt st now =
            ({ st with song_index := st.song_index + 1 },
              some (st.song_index, events[st.song_index])) := by
          unfold pitch_playback_step
          rw [dif_pos h, if_pos hdue]
        rw [pitch_playback_run_cons_fired hstep]
        obtain ⟨ih1, ih2, ih3⟩ := ih { st with song_index := st.song_index + 1 }
        refine ⟨?_, ?_, ?_⟩
        · exact le_trans (Nat.le_succ _) ih1
        · intro p hp
          rcases List.mem_cons.mp hp with rfl | hp'
          · exact ⟨le_refl _, by rw [List.getElem?_eq_getElem h]⟩
          · obtain ⟨h1, h2⟩ := ih2 p hp'
            have h1' : st.song_index + 1 ≤ p.1 := h1
            exact ⟨by omega, h2⟩
        · rw [List.pairwise_cons]
          refine ⟨?_, ih3⟩
          intro b hb
          have hb1 : st.song_index + 1 ≤ b.1 := (ih2 b hb).1
          show st.song_index < b.1
          omega
      · have hstep : pitch_playback_step events ttt st now = (st, none) := by
          unfold pitch_playback_step
          rw [dif_pos h, if_neg hdue]
        rw [pitch_playback_run_cons_skip hstep]
        exact ih st
    · have hstep : pitch_playback_step events ttt st now = (st, none) := by
        unfold pitch_playback_step
        rw [dif_neg h]
      rw [pitch_playback_run_cons_skip hstep]
      exact ih st

/-- C2: over any tick-sorted replica store and any monotonically
non-decreasing sequence of `now` timestamps driving the Playing-state
playback loop, the cursor `song_index` never rewinds, every fired
(position, event) pair is the stored event at that cursor position with
all fired positions strictly increasing (so no stored event fires
twice), and the fired events are in ascending tick order. -/
theorem c2_playback_exactly_once_in_tick_order (events : List SongEvent)
    (ttt : ℚ) (st : PlaybackState) (nows : List ℚ)
    (hs : TickSorted events) (hmono : nows.Pairwise (fun a b => a ≤ b)) :
    st.song_index ≤ (pitch_playback_run events ttt st nows).2.song_index ∧
      (∀ p ∈ (pitch_playback_run events ttt st nows).1,
        events[p.1]? = some p.2) ∧
      (pitch_playback_run events ttt st nows).1.Pairwise
        (fun a b => a.1 < b.1 ∧ a.2.tick ≤ b.2.tick) := by
  obtain ⟨h1, h2, h3⟩ := pitch_playback_run_invariant events ttt nows st
  refine ⟨h1, fun p hp => (h2 p hp).2, ?_⟩
  apply List.Pairwise.imp_of_mem ?_ h3
  intro a b ha hb hab
  refine ⟨hab, ?_⟩
  obtain ⟨haL, ha2⟩ := List.getElem?_eq_some.mp (h2 a ha).2
  obtain ⟨hbL, hb2⟩ := List.getElem?_eq_some.mp (h2 b hb).2
  have := List.Sorted.rel_get_of_lt (r := fun a b : SongEvent => a.tick ≤ b.tick) hs
    (a := ⟨a.1, haL⟩) (b := ⟨b.1, hbL⟩) (by exact hab)
  simpa [List.get_eq_getElem, ha2, hb2] using this

theorem c2_playback_exactly_once_in_tick_order_witness :
    TickSorted [⟨0, 0, 60, 100⟩, ⟨0, 0, 61, 90⟩, ⟨4, 0, 60, 0⟩] ∧
      (0 : Nat) ≤ (pitch_playback_run [⟨0, 0, 60, 100⟩, ⟨0, 0, 61, 90⟩, ⟨4, 0, 60, 0⟩]
        1 ⟨0, 0, 0⟩ [1, 2, 10]).2.song_index := by
  refine ⟨by decide, ?_⟩
  exact (c2_playback_exactly_once_in_tick_order
    [⟨0, 0, 60, 100⟩, ⟨0, 0, 61, 90⟩, ⟨4, 0, 60, 0⟩] 1 ⟨0, 0, 0⟩ [1, 2, 10]
    (by decide) (by norm_num)).1

/-! ## Claim C8 -/

theorem song_player_update_loop_index (events : List SongEvent)
    (tick_to_time sprite_time : ℚ) :
    ∀ (nows : List ℚ) (st st' : SPState) (r : Option (ℤ × Nat × Nat × Nat)),
      song_player_update_loop events tick_to_time sprite_time st nows = some (st', r) →
      st'.song_index ≤ st.song_index + 1 := by
  intro nows
  induction nows with
  | nil => intro st st' r h; simp [song_player_update_loop] at h
  | cons now nows ih =>
    intro st st' r h
    unfold song_player_update_loop at h
    by_cases hlt : st.song_index < events.length
    · rw [dif_pos hlt] at h
      by_cases hdue :
          st.start_time + ((events[st.song_index].tick : ℚ)) * tick_to_time ≤ now
      · rw [if_pos hdue] at h
        obtain ⟨h1, _⟩ := Prod.mk.injEq .. ▸ (Option.some.injEq _ _ ▸ h)
        rw [← h1]
      · rw [if_neg hdue] at h
        exact ih st st' r h
    · rw [dif_neg hlt] at h
      obtain ⟨h1, _⟩ := Prod.mk.injEq .. ▸ (Option.some.injEq _ _ ▸ h)
      rw [← h1]
      omega

/-- C8 counterexample: with two stored events both already due
(ticks 0 and 0, `now = 10`), one conductor scheduler pass
(`SongPlayer.update`) fires only the FIRST due event and returns with
the cursor advanced by one — the second due event is left for the next
pass, so due events are NOT all drained within the same pass. -/
theorem c8_counterexample :
    song_player_update [⟨0, 0, 60, 100⟩, ⟨0, 0, 61, 90⟩] 1 1
        ⟨PlayState.playing, 0, 0, 0⟩ [10]
      = some (⟨PlayState.playing, 1, 0, 0⟩, some (10, 0, 60, 100)) := by
  norm_num [song_player_update, song_player_update_loop, pyTrunc]

/-- C8 amended: one scheduler pass in the Playing state fires AT MOST
ONE due event: `SongPlayer.update` returns immediately after firing, and
`PatternPlayback.update` checks a single cursor event, so the cursor
advances by at most one per pass and the remaining due events wait for
subsequent passes. -/
theorem c8_at_most_one_event_per_pass :
    (∀ (events : List SongEvent) (tick_to_time sprite_time : ℚ) (st : SPState)
        (nows : List ℚ) (st' : SPState) (r : Option (ℤ × Nat × Nat × Nat)),
        song_player_update events tick_to_time sprite_time st nows = some (st', r) →
        st'.song_index ≤ st.song_index + 1) ∧
      (∀ (events : List SongEvent) (tick_to_time : ℚ) (st : PatternState) (now : ℚ),
        (pattern_playback_update events tick_to_time st now).1.song_index ≤
          st.song_index + 1) := by
  constructor
  · intro events ttt sprite_time st nows st' r h
    unfold song_player_update at h
    by_cases hplay : st.playback_state ≠ PlayState.playing
    · rw [if_pos hplay] at h
      obtain ⟨h1, _⟩ := Prod.mk.injEq .. ▸ (Option.some.injEq _ _ ▸ h)
      rw [← h1]
      omega
    · rw [if_neg hplay] at h
      by_cases hend : events.length ≤ st.song_index
      · rw [if_pos hend] at h
        obtain ⟨h1, _⟩ := Prod.mk.injEq .. ▸ (Option.some.injEq _ _ ▸ h)
        rw [← h1]
        simp
      · rw [if_neg hend] at h
        exact song_player_update_loop_index events ttt sprite_time nows st st' r h
  · intro events ttt st now
    unfold pattern_playback_update
    by_cases h : st.mode = 1 ∧ st.song_index < events.length
    · rw [dif_pos h]
      by_cases hdue : st.playback_start_time +
          ((events[st.song_index].tick : ℚ) - (st.tick_delta : ℚ)) * ttt ≤ now
      · rw [if_pos hdue]
      · rw [if_neg hdue]
        exact Nat.le_succ _
    · rw [dif_neg h]
      exact Nat.le_succ _

theorem c8_at_most_one_event_per_pass_witness :
    ((⟨PlayState.playing, 1, 0, 0⟩ : SPState).song_index ≤ 0 + 1) ∧
      (pattern_playback_update [⟨0, 0, 60, 100⟩, ⟨0, 0, 61, 90⟩] 1
        ⟨1, 0, 0, 0, 0⟩ 10).1.song_index ≤ 0 + 1 := by
  constructor
  · exact c8_at_most_one_event_per_pass.1 [⟨0, 0, 60, 100⟩, ⟨0, 0, 61, 90⟩] 1 1
      ⟨PlayState.playing, 0, 0, 0⟩ [10] ⟨PlayState.playing, 1, 0, 0⟩
      (some (10, 0, 60, 100))
      (by norm_num [song_player_update, song_player_update_loop, pyTrunc])
  · exact c8_at_most_one_event_per_pass.2 [⟨0, 0, 60, 100⟩, ⟨0, 0, 61, 90⟩] 1
      ⟨1, 0, 0, 0, 0⟩ 10

/-! ## Claim C9 -/

/-- C9: a satellite receiving a 'tick' packet with value T at time `now`
sets `tick_delta = T − int(time_to_tick × (now − start_time))`, and the
playback step then fires the cursor event exactly when
`now' ≥ start_time + (event.tick − tick_delta) × tick_to_time`, i.e. the
delta is subtracted from each event's scheduling tick. -/
theorem c9_tick_delta_correction (time_to_tick tick_to_time : ℚ)
    (st : PlaybackState) (T : Nat) (now : ℚ) (events : List SongEvent)
    (nowB : ℚ) (e : SongEvent)
    (h : events[st.song_index]? = some e) :
    (handle_tick_packet time_to_tick st T now).tick_delta
        = (T : ℤ) - pyTrunc (time_to_tick * (now - st.start_time)) ∧
      ((pitch_playback_step events tick_to_time
          (handle_tick_packet time_to_tick st T now) nowB).2.isSome ↔
        st.start_time +
            ((e.tick : ℚ) -
              (((T : ℤ) - pyTrunc (time_to_tick * (now - st.start_time)) : ℤ) : ℚ)) *
              tick_to_time ≤ nowB) := by
  obtain ⟨hlt, he⟩ := List.getElem?_eq_some.mp h
  constructor
  · rfl
  · have hst : handle_tick_packet time_to_tick st T now =
        ⟨st.song_index, st.start_time,
          (T : ℤ) - pyTrunc (time_to_tick * (now - st.start_time))⟩ := rfl
    rw [hst]
    unfold pitch_playback_step
    dsimp only
    rw [dif_pos hlt, he]
    by_cases hdue : st.start_time +
        ((e.tick : ℚ) -
          (((T : ℤ) - pyTrunc (time_to_tick * (now - st.start_time)) : ℤ) : ℚ)) *
          tick_to_time ≤ nowB
    · rw [if_pos hdue]
      refine iff_of_true rfl ?_
      push_cast at hdue ⊢
      linarith
    · rw [if_neg hdue]
      refine iff_of_false (by simp) ?_
      intro hcond
      apply hdue
      push_cast at hcond ⊢
      linarith

theorem c9_tick_delta_correction_witness :
    (handle_tick_packet 2 ⟨0, 0, 0⟩ 5 3).tick_delta
      = (5 : ℤ) - pyTrunc (2 * (3 - 0)) :=
  (c9_tick_delta_correction 2 1 ⟨0, 0, 0⟩ 5 3 [⟨0, 0, 60, 100⟩] 0
    ⟨0, 0, 60, 100⟩ rfl).1

/-! ## Claim C4 -/

theorem pyByte_ok {data : List Nat} {i : Nat} (h : i < data.length) :
    pyByte data i = Except.ok data[i] := dif_pos h

theorem pyByte_error {data : List Nat} {i : Nat} (h : ¬ i < data.length) :
    pyByte data i = Except.error PyErr.indexError := dif_neg h

theorem error_bind {α β : Type} (e : PyErr) (f : α → Except PyErr β) :
    (Except.error e >>= f) = Except.error e := rfl

theorem ok_bind {α β : Type} (a : α) (f : α → Except PyErr β) :
    (Except.ok a >>= f) = f a := rfl

/-- A header shorter than 11 bytes makes `_parse_header` raise
`IndexError` at one of the single-byte reads `data[8]`, `data[9]`,
`data[10]`. -/
theorem parse_header_error_of_short (data : List Nat) (h : data.length < 11) :
    parse_header data = Except.error PyErr.indexError := by
  unfold parse_header
  by_cases h8 : 8 < data.length
  · rw [pyByte_ok h8, ok_bind]
    by_cases h9 : 9 < data.length
    · rw [pyByte_ok h9, ok_bind]
      rw [pyByte_error (by omega), error_bind]
    · rw [pyByte_error h9, error_bind]
  · rw [pyByte_error h8, error_bind]

/-- A body length that is not a multiple of 7 makes `_parse_events`
raise `IndexError` at the channel, note or intensity read of the final
partial record. -/
theorem parse_events_from_bad (data : List Nat) :
    ∀ (k i : Nat) (events : List SongEvent), data.length - i = k → k % 7 ≠ 0 →
      parse_events_from data i events = Except.error PyErr.indexError := by
  intro k
  induction k using Nat.strong_induction_on with
  | _ k ih =>
    intro i events hk hmod
    have hi : i < data.length := by omega
    rw [parse_events_from, dif_pos hi]
    by_cases h4 : i + 4 < data.length
    · rw [pyByte_ok h4, ok_bind]
      by_cases h5 : i + 5 < data.length
      · rw [pyByte_ok h5, ok_bind]
        by_cases h6 : i + 6 < data.length
        · rw [pyByte_ok h6, ok_bind]
          exact ih (k - 7) (by omega) (i + 7) _ (by omega) (by omega)
        · rw [pyByte_error h6, error_bind]
      · rw [pyByte_error h5, error_bind]
    · rw [pyByte_error h4, error_bind]

/-- C4 counterexample: on the empty input (header shorter than 11
bytes), `Song.load` fails with a raised `IndexError` — an ordinary
Python exception propagating out of `_parse_header` — not with any
dedicated `MalformedSong` condition (no such condition exists in the
code). -/
theorem c4_counterexample :
    song_load [] = Except.error PyErr.indexError := by
  have h := parse_header_error_of_short [] (by simp)
  unfold song_load
  rw [h, error_bind]

/-- C4 amended: decoding never succeeds on an input whose header is
shorter than 11 bytes or whose body length is not a multiple of 7 — so
it never silently misreads such input — but the failure is a raised
runtime exception (`IndexError`, or `ZeroDivisionError` for a zero
tempo/ticks-per-beat/denominator product in the header), not a
`MalformedSong` condition. -/
theorem c4_malformed_input_never_parses (data : List Nat)
    (h : data.length < 11 ∨ (data.length - 11) % 7 ≠ 0) :
    ∃ e, song_load data = Except.error e := by
  by_cases hshort : data.length < 11
  · refine ⟨PyErr.indexError, ?_⟩
    unfold song_load
    rw [parse_header_error_of_short data hshort, error_bind]
  · have hmod : (data.length - 11) % 7 ≠ 0 := by
      rcases h with h | h
      · omega
      · exact h
    have hevents : parse_events data = Except.error PyErr.indexError :=
      parse_events_from_bad data (data.length - 11) 11 [] rfl hmod
    unfold song_load
    rcases parse_header data with e | md
    · exact ⟨e, by rw [error_bind]⟩
    · refine ⟨PyErr.indexError, ?_⟩
      rw [ok_bind, hevents, error_bind]

theorem c4_malformed_input_never_parses_witness :
    ∃ e, song_load [1, 224, 0, 0, 3, 192, 0, 120, 4, 4, 1, 9, 9, 9] = Except.error e :=
  c4_malformed_input_never_parses _ (by decide)

/-! ## Claim C5 -/

/-- C5: the packet decode step.  True half: an unknown type byte yields
`ok none` (dropped without raising), and a well-formed known-type packet
decodes to its typed tuple.  Failing half (the code bug): a truncated
payload of a known type — here a bare 'e' byte — RAISES `IndexError`
instead of returning `None`, contradicting both the spec and the
function's own docstring ("None if packet is invalid");
`check_packets` catches only `ValueError`, so the exception propagates. -/
theorem c5_truncated_payload_raises :
    handle_packet (some [101]) = Except.error PyErr.indexError ∧
      handle_packet (some [200, 1, 2, 3]) = Except.ok none ∧
      handle_packet (some [116, 0, 7]) = Except.ok (some (Packet.tick 7)) ∧
      handle_packet (some [101, 0, 0, 1, 224, 0, 60, 100])
        = Except.ok (some (Packet.event 0 0 480 60 100)) := by
  refine ⟨rfl, rfl, rfl, rfl⟩

/-! ## Claim C3: filtering commutes with insertion on sorted stores -/

theorem tickSorted_filter {l : List SongEvent} (hs : TickSorted l)
    (p : SongEvent → Bool) : TickSorted (l.filter p) :=
  List.Pairwise.sublist (List.filter_sublist _) hs

theorem takeWhile_eq_nil_of_not_head {p : SongEvent → Bool} :
    ∀ {l : List SongEvent}, (∀ e ∈ l, ¬ p e) → l.takeWhile p = [] := by
  intro l h
  cases l with
  | nil => rfl
  | cons x xs =>
    rw [List.takeWhile_cons, if_neg (h x (List.mem_cons_self _ _))]

theorem takeWhile_filter_comm {l : List SongEvent} (hs : TickSorted l)
    (p : SongEvent → Bool) (t : Nat) :
    (l.filter p).takeWhile (tickLt t) = (l.takeWhile (tickLt t)).filter p := by
  induction l with
  | nil => rfl
  | cons x xs ih =>
    obtain ⟨hs1, hs2⟩ := List.pairwise_cons.mp hs
    by_cases hpx : p x
    · by_cases htx : tickLt t x
      · rw [List.filter_cons_of_pos hpx, List.takeWhile_cons, if_pos htx,
          List.takeWhile_cons, if_pos htx, List.filter_cons_of_pos hpx, ih hs2]
      · rw [List.filter_cons_of_pos hpx, List.takeWhile_cons, if_neg htx,
          List.takeWhile_cons, if_neg htx]
        rfl
    · by_cases htx : tickLt t x
      · rw [List.filter_cons_of_neg hpx, List.takeWhile_cons, if_pos htx,
          List.filter_cons_of_neg hpx, ih hs2]
      · rw [List.filter_cons_of_neg hpx, List.takeWhile_cons, if_neg htx,
          List.filter_nil]
        apply takeWhile_eq_nil_of_not_head
        intro e he
        have hmem : e ∈ xs := ((List.filter_sublist _).subset he)
        have h1 : x.tick ≤ e.tick := hs1 e hmem
        have h2 : ¬ x.tick < t := by simpa [tickLt] using htx
        simp [tickLt]
        omega

theorem dropWhile_filter_comm {l : List SongEvent} (hs : TickSorted l)
    (p : SongEvent → Bool) (t : Nat) :
    (l.filter p).dropWhile (tickLt t) = (l.dropWhile (tickLt t)).filter p := by
  have h1 : (l.filter p).takeWhile (tickLt t) ++ (l.filter p).dropWhile (tickLt t)
      = l.filter p := List.takeWhile_append_dropWhile _ _
  have h2 : (l.takeWhile (tickLt t)).filter p ++ (l.dropWhile (tickLt t)).filter p
      = l.filter p := by
    rw [← List.filter_append, List.takeWhile_append_dropWhile]
  rw [takeWhile_filter_comm hs p t] at h1
  exact List.append_cancel_left (h1.trans h2.symm)

/-- Channel filtering commutes with `add_event_last` on a sorted store:
inserting then filtering equals filtering then inserting (when the event
passes the filter) or a no-op (when it does not). -/
theorem filter_add_event_last {l : List SongEvent} (hs : TickSorted l)
    (p : SongEvent → Bool) (e : SongEvent) :
    (add_event_last l e).filter p =
      if p e then add_event_last (l.filter p) e else l.filter p := by
  by_cases hme : e ∈ l
  · rw [add_event_last_duplicate hs hme]
    by_cases hpe : p e
    · rw [if_pos hpe,
        add_event_last_duplicate (tickSorted_filter hs p) (List.mem_filter.mpr ⟨hme, hpe⟩)]
    · rw [if_neg hpe]
  · rw [add_event_last_eq_of_sorted l e hs, if_neg hme, List.filter_append,
      List.filter_cons]
    by_cases hpe : p e
    · rw [if_pos hpe, if_pos hpe]
      have hnotin : e ∉ l.filter p := fun h => hme ((List.filter_sublist _).subset h)
      rw [add_event_last_eq_of_sorted _ e (tickSorted_filter hs p), if_neg hnotin,
        takeWhile_filter_comm hs p e.tick, dropWhile_filter_comm hs p e.tick]
    · rw [if_neg hpe, if_neg hpe, ← List.filter_append,
        List.takeWhile_append_dropWhile]

theorem chunks7_nil : chunks7 [] = [] := by
  rw [chunks7]
  simp

theorem pySlice_record (data : List Nat) (i : Nat) :
    pySlice data i (i + 7) = (data.drop i).take 7 := by
  unfold pySlice
  congr 1
  omega

theorem record_take2 (data : List Nat) (i : Nat) :
    ((data.drop i).take 7).take 2 = pySlice data i (i + 2) := by
  rw [List.take_take]
  unfold pySlice
  congr 1
  omega

theorem record_drop2_take2 (data : List Nat) (i : Nat) :
    (((data.drop i).take 7).drop 2).take 2 = pySlice data (i + 2) (i + 4) := by
  rw [List.drop_take, List.take_take, List.drop_drop]
  unfold pySlice
  congr 1
  omega

theorem record_getD (data : List Nat) (i j : Nat) (hj : j < 7)
    (h : i + j < data.length) :
    ((data.drop i).take 7).getD j 0 = data[i + j] := by
  rw [List.getD_eq_getElem?_getD, List.getElem?_take, if_pos hj,
    List.getElem?_drop, List.getElem?_eq_getElem h, Option.getD_some]

/-- The `range(11, len, 7)` loop of `_parse_events` is the fold of the
per-record insertion over the 7-byte chunks of the remaining data. -/
theorem parse_events_from_chunks (data : List Nat) :
    ∀ (k i : Nat) (events : List SongEvent), data.length - i = 7 * k →
      parse_events_from data i events =
        Except.ok ((chunks7 (data.drop i)).foldl parse_record_events events) := by
  intro k
  induction k with
  | zero =>
    intro i events hk
    rw [parse_events_from, dif_neg (by omega)]
    rw [List.drop_eq_nil_of_le (by omega), chunks7_nil]
    rfl
  | succ k ih =>
    intro i events hk
    have hi : i < data.length := by omega
    have h4 : i + 4 < data.length := by omega
    have h5 : i + 5 < data.length := by omega
    have h6 : i + 6 < data.length := by omega
    rw [parse_events_from, dif_pos hi, pyByte_ok h4, ok_bind, pyByte_ok h5, ok_bind,
      pyByte_ok h6, ok_bind, ih (i + 7) _ (by omega)]
    have hne : data.drop i ≠ [] := by
      intro hnil
      have := List.length_drop i data
      rw [hnil] at this
      simp at this
      omega
    have hchunks : chunks7 (data.drop i) =
        (data.drop i).take 7 :: chunks7 (data.drop (i + 7)) := by
      conv_lhs => rw [chunks7]
      rw [if_neg hne, List.drop_drop]
    have hrec : parse_record_events events ((data.drop i).take 7) =
        add_event_last
          (add_event_last events
            ⟨intFromBytes (pySlice data i (i + 2)), data[i + 4], data[i + 5], data[i + 6]⟩)
          ⟨intFromBytes (pySlice data (i + 2) (i + 4)), data[i + 4], data[i + 5], 0⟩ := by
      unfold parse_record_events recTickStart recTickEnd recCh recNote recIntensity
      rw [record_take2, record_drop2_take2,
        record_getD data i 4 (by omega) h4,
        record_getD data i 5 (by omega) h5,
        record_getD data i 6 (by omega) h6]
    rw [hchunks, List.foldl_cons, hrec]

/-- The event-packet loop of `send_song` emits exactly one
`'e' :: record` packet per matching 7-byte record, in record order. -/
theorem send_song_events_from_chunks (id : Nat) (data : List Nat) :
    ∀ (k i : Nat) (acc : List (List Nat)), data.length - i = 7 * k →
      send_song_events_from id data i acc =
        Except.ok (acc ++ ((chunks7 (data.drop i)).filter (recMatches id)).map
          (fun r => 101 :: r)) := by
  intro k
  induction k with
  | zero =>
    intro i acc hk
    rw [send_song_events_from, dif_neg (by omega)]
    rw [List.drop_eq_nil_of_le (by omega), chunks7_nil]
    simp
  | succ k ih =>
    intro i acc hk
    have hi : i < data.length := by omega
    have h4 : i + 4 < data.length := by omega
    rw [send_song_events_from, dif_pos hi, pyByte_ok h4, ok_bind,
      ih (i + 7) _ (by omega)]
    have hne : data.drop i ≠ [] := by
      intro hnil
      have := List.length_drop i data
      rw [hnil] at this
      simp at this
      omega
    have hchunks : chunks7 (data.drop i) =
        (data.drop i).take 7 :: chunks7 (data.drop (i + 7)) := by
      conv_lhs => rw [chunks7]
      rw [if_neg hne, List.drop_drop]
    have hch : recCh ((data.drop i).take 7) = data[i + 4] := by
      unfold recCh
      exact record_getD data i 4 (by omega) h4
    rw [hchunks]
    by_cases hmatch : data[i + 4] = id ∨ id = 255
    · rw [if_pos hmatch,
        List.filter_cons_of_pos (by simp [recMatches, hch]; exact hmatch),
        List.map_cons, pySlice_record]
      simp [List.append_assoc]
    · rw [if_neg hmatch,
        List.filter_cons_of_neg (by simp only [recMatches, hch, decide_eq_true_eq]; exact hmatch)]

/-- Decoding an `'e' :: record` packet yields the typed event tuple with
the record's fields. -/
theorem handle_packet_event_record (r : List Nat) (h : r.length = 7) :
    handle_packet (some (101 :: r)) =
      Except.ok (some (Packet.event (recCh r) (recTickStart r) (recTickEnd r)
        (recNote r) (recIntensity r))) := by
  rcases r with _ | ⟨b0, r⟩
  · simp only [List.length_nil] at h; omega
  rcases r with _ | ⟨b1, r⟩
  · simp only [List.length_cons, List.length_nil] at h; omega
  rcases r with _ | ⟨b2, r⟩
  · simp only [List.length_cons, List.length_nil] at h; omega
  rcases r with _ | ⟨b3, r⟩
  · simp only [List.length_cons, List.length_nil] at h; omega
  rcases r with _ | ⟨b4, r⟩
  · simp only [List.length_cons, List.length_nil] at h; omega
  rcases r with _ | ⟨b5, r⟩
  · simp only [List.length_cons, List.length_nil] at h; omega
  rcases r with _ | ⟨b6, r⟩
  · simp only [List.length_cons, List.length_nil] at h; omega
  rcases r with _ | ⟨b7, r⟩
  · rfl
  · simp only [List.length_cons, List.length_nil] at h; omega

/-- One satellite packet-handling step on an `'e'` packet: decode plus
the channel check of `_handle_event_packet`. -/
theorem satellite_apply_event_record (c : Nat) (events : List SongEvent)
    (r : List Nat) (h : r.length = 7) :
    satellite_apply_packet c events (101 :: r) =
      Except.ok (if recCh r = c then
        local_add_event_events events c (recTickStart r) (recTickEnd r) (recNote r)
          (recIntensity r)
      else events) := by
  unfold satellite_apply_packet
  rw [handle_packet_event_record r h]
  show (if recCh r = c then
      Except.ok (local_add_event_events events c (recTickStart r) (recTickEnd r)
        (recNote r) (recIntensity r))
    else Except.ok events) = _
  by_cases hc : recCh r = c
  · rw [if_pos hc, if_pos hc]
  · rw [if_neg hc, if_neg hc]

theorem chunks7_length7 : ∀ (k : Nat) (l : List Nat), l.length = 7 * k →
    ∀ r ∈ chunks7 l, r.length = 7 := by
  intro k
  induction k with
  | zero =>
    intro l hl r hr
    have hnil : l = [] := List.length_eq_zero.mp (by omega)
    rw [hnil, chunks7_nil] at hr
    simp at hr
  | succ k ih =>
    intro l hl r hr
    have hne : l ≠ [] := by
      intro hnil
      rw [hnil] at hl
      simp at hl
    rw [chunks7, if_neg hne] at hr
    rcases List.mem_cons.mp hr with rfl | hr'
    · rw [List.length_take]
      have : l.length = 7 * k + 7 := by omega
      omega
    · exact ih (l.drop 7) (by rw [List.length_drop]; omega) r hr'

theorem tickSorted_foldl_parse_record : ∀ (rs : List (List Nat)) (S : List SongEvent),
    TickSorted S → TickSorted (rs.foldl parse_record_events S) := by
  intro rs
  induction rs with
  | nil => intro S h; exact h
  | cons r rs ih =>
    intro S h
    rw [List.foldl_cons]
    exact ih _ (tickSorted_add_event_last (tickSorted_add_event_last h _) _)

/-- Channel-filter effect of one record's two insertions on a sorted
conductor store. -/
theorem filter_parse_record (S : List SongEvent) (hS : TickSorted S)
    (c : Nat) (r : List Nat) :
    (parse_record_events S r).filter (chEq c) =
      if recCh r = c then
        local_add_event_events (S.filter (chEq c)) c (recTickStart r) (recTickEnd r)
          (recNote r) (recIntensity r)
      else S.filter (chEq c) := by
  unfold parse_record_events local_add_event_events
  by_cases hc : recCh r = c
  · rw [if_pos hc]
    rw [filter_add_event_last (tickSorted_add_event_last hS _) (chEq c) _,
      if_pos (by simp [chEq, hc]),
      filter_add_event_last hS (chEq c) _,
      if_pos (by simp [chEq, hc]), hc]
  · rw [if_neg hc]
    rw [filter_add_event_last (tickSorted_add_event_last hS _) (chEq c) _,
      if_neg (by simp [chEq, hc]),
      filter_add_event_last hS (chEq c) _,
      if_neg (by simp [chEq, hc])]

/-- Simulation: delivering the matching `'e'` packets of a record list
to a satellite of channel `c` reproduces, on the satellite's store, the
channel-`c` restriction of the conductor's store after parsing the same
records. -/
theorem satellite_conductor_sim (c id : Nat) (hid : id = c ∨ id = 255) :
    ∀ (rs : List (List Nat)), (∀ r ∈ rs, r.length = 7) →
      ∀ (S : List SongEvent), TickSorted S →
        satellite_process c (S.filter (chEq c))
            ((rs.filter (recMatches id)).map (fun r => 101 :: r)) =
          Except.ok ((rs.foldl parse_record_events S).filter (chEq c)) := by
  intro rs
  induction rs with
  | nil => intro _ S hS; rfl
  | cons r rs ih =>
    intro hlen S hS
    have hr7 : r.length = 7 := hlen r (List.mem_cons_self _ _)
    have hlen' : ∀ r' ∈ rs, r'.length = 7 :=
      fun r' hr' => hlen r' (List.mem_cons_of_mem _ hr')
    have hS' : TickSorted (parse_record_events S r) := by
      unfold parse_record_events
      exact tickSorted_add_event_last (tickSorted_add_event_last hS _) _
    rw [List.foldl_cons]
    by_cases hmatch : recMatches id r
    · rw [List.filter_cons_of_pos hmatch, List.map_cons, satellite_process,
        satellite_apply_event_record c _ r hr7, ok_bind]
      by_cases hc : recCh r = c
      · rw [if_pos hc]
        have hfe := filter_parse_record S hS c r
        rw [if_pos hc] at hfe
        rw [← hfe]
        exact ih hlen' (parse_record_events S r) hS'
      · rw [if_neg hc]
        have hfe := filter_parse_record S hS c r
        rw [if_neg hc] at hfe
        rw [← hfe]
        exact ih hlen' (parse_record_events S r) hS'
    · have hc : recCh r ≠ c := by
        intro hcc
        rcases hid with rfl | rfl
        · exact hmatch (by simp [recMatches, hcc])
        · exact hmatch (by simp [recMatches])
      rw [List.filter_cons_of_neg hmatch]
      have hfe := filter_parse_record S hS c r
      rw [if_neg hc] at hfe
      rw [← hfe]
      exact ih hlen' (parse_record_events S r) hS'

/-- C3: `send_song` emits one 'e' packet per 7-byte record whose channel
byte equals the target id (every record when the id is the broadcast
value 255), in record order; and a satellite of channel `c` (with
`id = c`, or any `c` under broadcast) that applies each such packet
through its event handler ends with an event store equal to the store
`Song._parse_events` builds from the same byte song, restricted to
channel `c`. -/
theorem c3_distribute_song_equals_restricted_parse (byte_song : List Nat)
    (k id c : Nat) (hlen : byte_song.length = 11 + 7 * k)
    (hid : id = c ∨ id = 255) :
    send_song_event_packets id byte_song =
        Except.ok (((chunks7 (byte_song.drop 11)).filter (recMatches id)).map
          (fun r => 101 :: r)) ∧
      ∃ S, parse_events byte_song = Except.ok S ∧
        satellite_process c []
            (((chunks7 (byte_song.drop 11)).filter (recMatches id)).map
              (fun r => 101 :: r)) =
          Except.ok (S.filter (chEq c)) := by
  have hk : byte_song.length - 11 = 7 * k := by omega
  constructor
  · unfold send_song_event_packets
    rw [send_song_events_from_chunks id byte_song k 11 [] hk]
    rfl
  · refine ⟨(chunks7 (byte_song.drop 11)).foldl parse_record_events [], ?_, ?_⟩
    · unfold parse_events
      exact parse_events_from_chunks byte_song k 11 [] hk
    · have h7 : ∀ r ∈ chunks7 (byte_song.drop 11), r.length = 7 :=
        chunks7_length7 k (byte_song.drop 11) (by rw [List.length_drop]; omega)
      have := satellite_conductor_sim c id hid (chunks7 (byte_song.drop 11)) h7 []
        (by unfold TickSorted; exact List.Pairwise.nil)
      simpa using this

theorem c3_distribute_song_equals_restricted_parse_witness :
    send_song_event_packets 0
        ([1, 224, 0, 0, 3, 192, 0, 120, 4, 4, 1] ++
          [0, 0, 1, 224, 0, 60, 100] ++ [0, 0, 0, 16, 3, 61, 90]) =
      Except.ok [[101, 0, 0, 1, 224, 0, 60, 100]] ∧
    satellite_process 0 [] [[101, 0, 0, 1, 224, 0, 60, 100]] =
      Except.ok [⟨0, 0, 60, 100⟩, ⟨480, 0, 60, 0⟩] := by
  obtain ⟨h1, S, h2, h3⟩ := c3_distribute_song_equals_restricted_parse
    ([1, 224, 0, 0, 3, 192, 0, 120, 4, 4, 1] ++
      [0, 0, 1, 224, 0, 60, 100] ++ [0, 0, 0, 16, 3, 61, 90]) 2 0 0
    (by decide) (Or.inl rfl)
  have e1 : ([1, 224, 0, 0, 3, 192, 0, 120, 4, 4, 1] ++
      [0, 0, 1, 224, 0, 60, 100] ++ [0, 0, 0, 16, 3, 61, 90]).drop 11 =
      [0, 0, 1, 224, 0, 60, 100, 0, 0, 0, 16, 3, 61, 90] := rfl
  have e2 : chunks7 [0, 0, 1, 224, 0, 60, 100, 0, 0, 0, 16, 3, 61, 90] =
      [[0, 0, 1, 224, 0, 60, 100], [0, 0, 0, 16, 3, 61, 90]] := by
    rw [chunks7, if_neg (by decide)]
    show [0, 0, 1, 224, 0, 60, 100] :: chunks7 [0, 0, 0, 16, 3, 61, 90] = _
    rw [chunks7, if_neg (by decide)]
    show [0, 0, 1, 224, 0, 60, 100] :: [0, 0, 0, 16, 3, 61, 90] :: chunks7 [] = _
    rw [chunks7_nil]
  have e3 : (([[0, 0, 1, 224, 0, 60, 100], [0, 0, 0, 16, 3, 61, 90]] :
        List (List Nat)).filter (recMatches 0)).map (fun r => 101 :: r) =
      [[101, 0, 0, 1, 224, 0, 60, 100]] := by decide
  rw [e1, e2, e3] at h1 h3
  refine ⟨h1, ?_⟩
  have h2' : parse_events ([1, 224, 0, 0, 3, 192, 0, 120, 4, 4, 1] ++
      [0, 0, 1, 224, 0, 60, 100] ++ [0, 0, 0, 16, 3, 61, 90]) =
      Except.ok [⟨0, 3, 61, 90⟩, ⟨0, 0, 60, 100⟩, ⟨16, 3, 61, 0⟩, ⟨480, 0, 60, 0⟩] := by
    unfold parse_events
    rw [parse_events_from_chunks _ 2 11 [] (by decide), e1, e2]
    exact congrArg Except.ok (by decide)
  have hS : S = [⟨0, 3, 61, 90⟩, ⟨0, 0, 60, 100⟩, ⟨16, 3, 61, 0⟩, ⟨480, 0, 60, 0⟩] :=
    Except.ok.inj (h2.symm.trans h2')
  rw [hS] at h3
  rw [h3]
  exact congrArg Except.ok (by decide)

end LeetAI
